import Mathlib

/-!
Verification of the PALETTE generator (src/main.c) against its specification.

Modelling conventions:
* C `float`/`double` values are embedded as exact rationals (`ℚ`); each numeric
  literal of the source becomes the exact rational it denotes.
* The transcendental calls `cos(TWO_PI * hue / 360.0f)` and
  `sin(TWO_PI * hue / 360.0f)` are abstracted as an oracle `Trig` mapping the
  integer hue (in degrees) to arbitrary rational values; every theorem below
  quantifies over the oracle, so nothing depends on actual trigonometry.
* A C cast `(int) x` truncates toward zero (`truncQ`); conversion of an `int`
  to `unsigned char` reduces modulo 256 (`ucharOfInt`).
* The global mutable state of the program (colors array, counter, capacity) is
  threaded explicitly as `PalState`; the `dropped` flag records whether the
  capacity-exceeded branch of `add_color` was ever taken.
* File output is modelled as the byte/character sequences the writers emit,
  assuming the file opens and every write succeeds (I/O failures are outside
  the shallow embedding).
-/

set_option maxRecDepth 8000
set_option maxHeartbeats 2000000

namespace Palette

/-- Color record of main.c lines 17-22: three unsigned 8-bit channels. -/
structure color where
  r : ℕ
  g : ℕ
  b : ℕ
  deriving DecidableEq

/-- Truncation toward zero, the semantics of a C cast from a real value to `int`. -/
def truncQ (x : ℚ) : ℤ := if 0 ≤ x then ⌊x⌋ else ⌈x⌉

/-- Conversion of a C `int` to `unsigned char`: reduction modulo 256. -/
def ucharOfInt (x : ℤ) : ℕ := (x % 256).toNat

/-- Builds a stored color from the three `int` channel values passed to `add_color`. -/
def mkColor (t : ℤ × ℤ × ℤ) : color :=
  ⟨ucharOfInt t.1, ucharOfInt t.2.1, ucharOfInt t.2.2⟩

/-! ### Table step constants (main.c lines 48-53), as the exact rationals of the
source literals.  The source comments claim the step is `1 / (n + 2)` where `n`
is the number of colors per hue; three of the constants are 15-digit decimal
truncations of that fraction rather than the fraction itself. -/

def COMPOSITE_06_TABLE_STEP : ℚ := 0.125
def COMPOSITE_12_TABLE_STEP : ℚ := 0.071428571428571
def COMPOSITE_18_TABLE_STEP : ℚ := 0.05
def COMPOSITE_24_TABLE_STEP : ℚ := 0.038461538461538
def COMPOSITE_36_TABLE_STEP : ℚ := 0.026315789473684
def COMPOSITE_48_TABLE_STEP : ℚ := 0.02

/-! ### Hard-coded NES voltage tables (main.c lines 63-69). -/

def S_nes_lum : List ℚ := [0.1995, 0.342, 0.654, 0.8575]
def S_nes_sat : List ℚ := [0.1995, 0.342, 0.346, 0.1425]

def S_approx_nes_lum : List ℚ := [0.2, 0.35, 0.65, 0.85]
def S_approx_nes_sat : List ℚ := [0.2, 0.35, 0.35, 0.15]

/-- One iteration of a loop of `generate_voltage_tables` (main.c lines
102-167), in source order: `lum[k] = (k + 1) * step`,
`lum[n - 1 - k] = 1 - lum[k]`, `sat[k] = lum[k]`, `sat[n - 1 - k] = sat[k]`. -/
def fillIter (step : ℚ) (n k : ℕ) (t : List ℚ × List ℚ) : List ℚ × List ℚ :=
  let lum1 := t.1.set k (((k : ℚ) + 1) * step)
  let lum2 := lum1.set (n - 1 - k) (1 - lum1.getD k 0)
  let sat1 := t.2.set k (lum2.getD k 0)
  let sat2 := sat1.set (n - 1 - k) (sat1.getD k 0)
  (lum2, sat2)

/-- One loop of `generate_voltage_tables`: `tablesFill step n m t` runs the
iterations `k = 0, 1, ..., m - 1` in ascending order starting from the pair of
arrays `t`; the C globals start zero-initialized. -/
def tablesFill (step : ℚ) (n : ℕ) : ℕ → (List ℚ × List ℚ) → (List ℚ × List ℚ)
  | 0, t => t
  | k + 1, t => fillIter step n k (tablesFill step n k t)

def S_composite_06 : List ℚ × List ℚ :=
  tablesFill COMPOSITE_06_TABLE_STEP 6 3 (List.replicate 6 0, List.replicate 6 0)

def S_composite_12 : List ℚ × List ℚ :=
  tablesFill COMPOSITE_12_TABLE_STEP 12 6 (List.replicate 12 0, List.replicate 12 0)

def S_composite_18 : List ℚ × List ℚ :=
  tablesFill COMPOSITE_18_TABLE_STEP 18 9 (List.replicate 18 0, List.replicate 18 0)

def S_composite_24 : List ℚ × List ℚ :=
  tablesFill COMPOSITE_24_TABLE_STEP 24 12 (List.replicate 24 0, List.replicate 24 0)

def S_composite_36 : List ℚ × List ℚ :=
  tablesFill COMPOSITE_36_TABLE_STEP 36 18 (List.replicate 36 0, List.replicate 36 0)

def S_composite_48 : List ℚ × List ℚ :=
  tablesFill COMPOSITE_48_TABLE_STEP 48 24 (List.replicate 48 0, List.replicate 48 0)

def S_composite_06_lum : List ℚ := S_composite_06.1
def S_composite_06_sat : List ℚ := S_composite_06.2
def S_composite_12_lum : List ℚ := S_composite_12.1
def S_composite_12_sat : List ℚ := S_composite_12.2
def S_composite_18_lum : List ℚ := S_composite_18.1
def S_composite_18_sat : List ℚ := S_composite_18.2
def S_composite_24_lum : List ℚ := S_composite_24.1
def S_composite_24_sat : List ℚ := S_composite_24.2
def S_composite_36_lum : List ℚ := S_composite_36.1
def S_composite_36_sat : List ℚ := S_composite_36.2
def S_composite_48_lum : List ℚ := S_composite_48.1
def S_composite_48_sat : List ℚ := S_composite_48.2

/-- Source enumeration of main.c lines 24-37. -/
inductive Source
  | approx_nes
  | approx_nes_rotated
  | composite_06_0p75x
  | composite_06_3x
  | composite_12_1p50x
  | composite_12_6x
  | composite_18_1x
  | composite_24_0p75x
  | composite_24_3x
  | composite_36_2x
  | composite_48_1p50x
  deriving DecidableEq

/-- Hue modifier enumeration of main.c lines 39-44. -/
inductive HueModifier
  | full
  | lower_half
  | upper_half
  deriving DecidableEq

/-- Luma table bound by `set_voltage_table_pointers` (main.c lines 172-232). -/
def lumaTable : Source → List ℚ
  | Source.approx_nes => S_approx_nes_lum
  | Source.approx_nes_rotated => S_approx_nes_lum
  | Source.composite_06_0p75x => S_composite_06_lum
  | Source.composite_06_3x => S_composite_06_lum
  | Source.composite_12_1p50x => S_composite_12_lum
  | Source.composite_12_6x => S_composite_12_lum
  | Source.composite_18_1x => S_composite_18_lum
  | Source.composite_24_0p75x => S_composite_24_lum
  | Source.composite_24_3x => S_composite_24_lum
  | Source.composite_36_2x => S_composite_36_lum
  | Source.composite_48_1p50x => S_composite_48_lum

/-- Saturation table bound by `set_voltage_table_pointers`. -/
def satTable : Source → List ℚ
  | Source.approx_nes => S_approx_nes_sat
  | Source.approx_nes_rotated => S_approx_nes_sat
  | Source.composite_06_0p75x => S_composite_06_sat
  | Source.composite_06_3x => S_composite_06_sat
  | Source.composite_12_1p50x => S_composite_12_sat
  | Source.composite_12_6x => S_composite_12_sat
  | Source.composite_18_1x => S_composite_18_sat
  | Source.composite_24_0p75x => S_composite_24_sat
  | Source.composite_24_3x => S_composite_24_sat
  | Source.composite_36_2x => S_composite_36_sat
  | Source.composite_48_1p50x => S_composite_48_sat

/-- Value assigned to `S_table_length` by `set_voltage_table_pointers`. -/
def tableLength : Source → ℕ
  | Source.approx_nes => 4
  | Source.approx_nes_rotated => 4
  | Source.composite_06_0p75x => 6
  | Source.composite_06_3x => 6
  | Source.composite_12_1p50x => 12
  | Source.composite_12_6x => 12
  | Source.composite_18_1x => 18
  | Source.composite_24_0p75x => 24
  | Source.composite_24_3x => 24
  | Source.composite_36_2x => 36
  | Source.composite_48_1p50x => 48

/-- Value assigned to `G_max_colors` in `main` (main.c lines 862-887). -/
def maxColors : Source → ℕ
  | Source.approx_nes => 64
  | Source.approx_nes_rotated => 64
  | Source.composite_06_0p75x => 64
  | Source.composite_06_3x => 256
  | Source.composite_12_1p50x => 256
  | Source.composite_12_6x => 1024
  | Source.composite_18_1x => 256
  | Source.composite_24_0p75x => 256
  | Source.composite_24_3x => 1024
  | Source.composite_36_2x => 1024
  | Source.composite_48_1p50x => 1024

/-- Hue step in degrees chosen by `generate_palette_from_source`
(main.c lines 375-376 and 413-444). -/
def hueStep : Source → ℕ
  | Source.approx_nes => 30
  | Source.approx_nes_rotated => 30
  | Source.composite_06_0p75x => 40
  | Source.composite_06_3x => 10
  | Source.composite_12_1p50x => 20
  | Source.composite_12_6x => 5
  | Source.composite_18_1x => 30
  | Source.composite_24_0p75x => 40
  | Source.composite_24_3x => 10
  | Source.composite_36_2x => 15
  | Source.composite_48_1p50x => 20

/-- Starting hue chosen by `generate_palette_from_source`: 15 degrees for the
rotated approximate-NES source, otherwise 0 (main.c lines 378-381, 446). -/
def hueStart (s : Source) : ℕ :=
  if s = Source.approx_nes_rotated then 15 else 0

/-- Trigonometry oracle: the values the C library returns for
`cos(TWO_PI * hue / 360.0f)` and `sin(TWO_PI * hue / 360.0f)`. -/
structure Trig where
  cosd : ℕ → ℚ
  sind : ℕ → ℚ

/-- State of the color list globals `G_colors_array` / `G_num_colors` /
`G_max_colors`, plus a flag recording whether the capacity-exceeded branch of
`add_color` was ever taken. -/
structure PalState where
  colors : List color
  maxColors : ℕ
  dropped : Bool
  deriving DecidableEq

/-- Embedding of `add_color` (main.c lines 237-254).  The C guard is
`(G_num_colors < 0) || (G_num_colors >= G_max_colors)`; the counter is a list
length here, so only the second disjunct can fire.  On failure the color is
dropped and the run continues. -/
def add_color (r g b : ℤ) (st : PalState) : PalState :=
  if st.maxColors ≤ st.colors.length then { st with dropped := true }
  else { st with colors := st.colors ++ [mkColor (r, g, b)] }

/-- Channel value computed for one grey entry (main.c lines 270-272):
`(int) ((S_luma_table[k] * 255) + 0.5f)`, not clamped. -/
def grey_channel (lum : ℚ) : ℤ := truncQ (lum * 255 + 0.5)

/-- Embedding of `generate_palette_greys` (main.c lines 259-278): one grey per
table entry, the channel value replicated to r, g, b. -/
def generate_palette_greys (s : Source) (st : PalState) : PalState :=
  (List.range (tableLength s)).foldl
    (fun st k =>
      add_color (grey_channel ((lumaTable s).getD k 0))
                (grey_channel ((lumaTable s).getD k 0))
                (grey_channel ((lumaTable s).getD k 0)) st) st

/-- Clamping of a channel to [0, 255] (main.c lines 339-352). -/
def clampChannel (x : ℤ) : ℤ :=
  if x < 0 then 0 else if 255 < x then 255 else x

/-- Red channel of the YIQ transform (main.c line 334), truncated then clamped. -/
def hue_channel_r (y i q : ℚ) : ℤ :=
  clampChannel (truncQ ((y + i * 0.956 + q * 0.619) * 255 + 0.5))

/-- Green channel of the YIQ transform (main.c line 335), truncated then clamped. -/
def hue_channel_g (y i q : ℚ) : ℤ :=
  clampChannel (truncQ ((y - i * 0.272 - q * 0.647) * 255 + 0.5))

/-- Blue channel of the YIQ transform (main.c line 336), truncated then clamped. -/
def hue_channel_b (y i q : ℚ) : ℤ :=
  clampChannel (truncQ ((y - i * 1.106 + q * 1.703) * 255 + 0.5))

/-- Channel triple generated for one (hue, tap) pair inside the loop of
`generate_palette_hue` (main.c lines 328-356): `y = S_luma_table[k]`,
`i = S_saturation_table[k] * cos(...)`, `q = S_saturation_table[k] * sin(...)`. -/
def hue_tap_color (T : Trig) (s : Source) (hue k : ℕ) : ℤ × ℤ × ℤ :=
  let y := (lumaTable s).getD k 0
  let i := (satTable s).getD k 0 * T.cosd hue
  let q := (satTable s).getD k 0 * T.sind hue
  (hue_channel_r y i q, hue_channel_g y i q, hue_channel_b y i q)

/-- Embedding of `generate_palette_hue` (main.c lines 283-359).  An invalid hue
(≥ 360) makes the function report an error and append nothing; the modifier
selects the full table or its lower or upper half. -/
def generate_palette_hue (T : Trig) (s : Source) (hue : ℕ) (m : HueModifier)
    (st : PalState) : PalState :=
  if 360 ≤ hue then st
  else
    let si := match m with
      | HueModifier.full => 0
      | HueModifier.lower_half => 0
      | HueModifier.upper_half => tableLength s / 2
    let ei := match m with
      | HueModifier.full => tableLength s
      | HueModifier.lower_half => tableLength s / 2
      | HueModifier.upper_half => tableLength s
    (List.range' si (ei - si)).foldl
      (fun st k =>
        add_color (hue_tap_color T s hue k).1
                  (hue_tap_color T s hue k).2.1
                  (hue_tap_color T s hue k).2.2 st) st

/-- Hue loop of `generate_palette_from_source` (main.c lines 393-400, 452-459):
runs `count` iterations, each generating one full hue and then advancing the
hue by `step` modulo 360. -/
def hueLoop (T : Trig) (s : Source) (step : ℕ) : ℕ → ℕ → PalState → PalState
  | 0, _, st => st
  | count + 1, hue, st =>
      hueLoop T s step count ((hue + step) % 360)
        (generate_palette_hue T s hue HueModifier.full st)

/-- Embedding of `generate_palette_from_source` (main.c lines 364-463).  The
approximate-NES family appends pure black, the greys, pure white and then
`360 / 30 = 12` hues; a composite family appends the greys and then
`360 / step` hues. -/
def generate_palette_from_source (T : Trig) (s : Source) (st : PalState) : PalState :=
  if s = Source.approx_nes ∨ s = Source.approx_nes_rotated then
    hueLoop T s (hueStep s) (360 / hueStep s) (hueStart s)
      (add_color 255 255 255 (generate_palette_greys s (add_color 0 0 0 st)))
  else
    hueLoop T s (hueStep s) (360 / hueStep s) 0 (generate_palette_greys s st)

/-- One full run of the generation pipeline for a source: `main` allocates an
empty list with the capacity of the source and calls
`generate_palette_from_source`. -/
def runPalette (T : Trig) (s : Source) : PalState :=
  generate_palette_from_source T s ⟨[], maxColors s, false⟩


/-! ### Claims C3 and C4: symmetry and construction of the voltage tables. -/

/-- Pointwise symmetry of a voltage-table pair of length `n`:
`luma[k] + luma[n-1-k] = 1` and `saturation[k] = saturation[n-1-k]`. -/
def tableSymmetric (lum sat : List ℚ) (n : ℕ) : Prop :=
  ∀ k, k < n →
    lum.getD k 0 + lum.getD (n - 1 - k) 0 = 1 ∧
    sat.getD k 0 = sat.getD (n - 1 - k) 0

/-- Lower-half construction property of a derived table pair of length `n` with
step constant `step`, as built by `generate_voltage_tables`: for `k < n / 2`,
`luma[k] = (k+1) * step`, `luma[n-1-k] = 1 - luma[k]`, `saturation[k] = luma[k]`
and `saturation[n-1-k] = saturation[k]`. -/
def tableBuiltFrom (lum sat : List ℚ) (n : ℕ) (step : ℚ) : Prop :=
  ∀ k, k < n / 2 →
    lum.getD k 0 = ((k : ℚ) + 1) * step ∧
    lum.getD (n - 1 - k) 0 = 1 - lum.getD k 0 ∧
    sat.getD k 0 = lum.getD k 0 ∧
    sat.getD (n - 1 - k) 0 = sat.getD k 0

/-- Adjacent-entry relation used for the luma tables: both entries are within
[0, 1] and the right one exceeds the left one by at least 1/255 (one grey
quantization step), which makes the rounded grey levels strictly increase. -/
def lumaGap (a b : ℚ) : Prop := 0 ≤ a ∧ a + 1 / 255 ≤ b ∧ b ≤ 1

/-! #### Characterization of the fill loops by induction.

The lemmas below describe `tablesFill` without evaluating it: after `m`
iterations the first `m` and the last `m` entries of both arrays hold the
documented values. -/

lemma getD_set_self (l : List ℚ) (i : ℕ) (a : ℚ) (hi : i < l.length) :
    (l.set i a).getD i 0 = a := by
  rw [List.getD_eq_getElem?_getD, List.getElem?_set_self hi]
  rfl

lemma getD_set_other (l : List ℚ) (i j : ℕ) (a : ℚ) (hij : i ≠ j) :
    (l.set i a).getD j 0 = l.getD j 0 := by
  rw [List.getD_eq_getElem?_getD, List.getElem?_set_ne hij,
    ← List.getD_eq_getElem?_getD]

lemma fillIter_spec (step : ℚ) (n k : ℕ) (t : List ℚ × List ℚ)
    (h1 : t.1.length = n) (h2 : t.2.length = n) (hk : 2 * (k + 1) ≤ n) :
    (fillIter step n k t).1.length = n ∧
    (fillIter step n k t).2.length = n ∧
    (fillIter step n k t).1.getD k 0 = ((k : ℚ) + 1) * step ∧
    (fillIter step n k t).1.getD (n - 1 - k) 0 = 1 - ((k : ℚ) + 1) * step ∧
    (fillIter step n k t).2.getD k 0 = ((k : ℚ) + 1) * step ∧
    (fillIter step n k t).2.getD (n - 1 - k) 0 = ((k : ℚ) + 1) * step ∧
    ∀ j, j ≠ k → j ≠ n - 1 - k →
      (fillIter step n k t).1.getD j 0 = t.1.getD j 0 ∧
      (fillIter step n k t).2.getD j 0 = t.2.getD j 0 := by
  have hkn : k < t.1.length := by omega
  have hne : ¬(n - 1 - k = k) := by omega
  have hl1 : (t.1.set k (((k : ℚ) + 1) * step)).getD k 0 = ((k : ℚ) + 1) * step :=
    getD_set_self _ _ _ hkn
  have hfst : (fillIter step n k t).1
      = (t.1.set k (((k : ℚ) + 1) * step)).set (n - 1 - k)
          (1 - (t.1.set k (((k : ℚ) + 1) * step)).getD k 0) := rfl
  have hlum_k : (fillIter step n k t).1.getD k 0 = ((k : ℚ) + 1) * step := by
    rw [hfst, getD_set_other _ _ _ _ hne, hl1]
  have hsnd : (fillIter step n k t).2
      = (t.2.set k ((fillIter step n k t).1.getD k 0)).set (n - 1 - k)
          ((t.2.set k ((fillIter step n k t).1.getD k 0)).getD k 0) := rfl
  have hkn2 : k < t.2.length := by omega
  have hsat_inner : (t.2.set k ((fillIter step n k t).1.getD k 0)).getD k 0
      = ((k : ℚ) + 1) * step := by
    rw [getD_set_self _ _ _ hkn2, hlum_k]
  refine ⟨?_, ?_, hlum_k, ?_, ?_, ?_, ?_⟩
  · rw [hfst, List.length_set, List.length_set, h1]
  · rw [hsnd, List.length_set, List.length_set, h2]
  · rw [hfst, getD_set_self _ _ _ (by rw [List.length_set]; omega), hl1]
  · rw [hsnd, getD_set_other _ _ _ _ hne, hsat_inner]
  · rw [hsnd, getD_set_self _ _ _ (by rw [List.length_set]; omega), hsat_inner]
  · intro j hj1 hj2
    constructor
    · rw [hfst, getD_set_other _ _ _ _ (fun h => hj2 h.symm),
        getD_set_other _ _ _ _ (fun h => hj1 h.symm)]
    · rw [hsnd, getD_set_other _ _ _ _ (fun h => hj2 h.symm),
        getD_set_other _ _ _ _ (fun h => hj1 h.symm)]

lemma tablesFill_spec (step : ℚ) (n : ℕ) :
    ∀ (m : ℕ) (t : List ℚ × List ℚ), t.1.length = n → t.2.length = n → 2 * m ≤ n →
      (tablesFill step n m t).1.length = n ∧
      (tablesFill step n m t).2.length = n ∧
      ∀ j, j < m →
        (tablesFill step n m t).1.getD j 0 = ((j : ℚ) + 1) * step ∧
        (tablesFill step n m t).1.getD (n - 1 - j) 0 = 1 - ((j : ℚ) + 1) * step ∧
        (tablesFill step n m t).2.getD j 0 = ((j : ℚ) + 1) * step ∧
        (tablesFill step n m t).2.getD (n - 1 - j) 0 = ((j : ℚ) + 1) * step := by
  intro m
  induction m with
  | zero =>
    intro t h1 h2 hm
    exact ⟨h1, h2, fun j hj => absurd hj (Nat.not_lt_zero j)⟩
  | succ m ih =>
    intro t h1 h2 hm
    obtain ⟨ih1, ih2, ihj⟩ := ih t h1 h2 (by omega)
    obtain ⟨f1, f2, fk, fmir, sk, smir, fpres⟩ :=
      fillIter_spec step n m (tablesFill step n m t) ih1 ih2 hm
    have heq : tablesFill step n (m + 1) t
        = fillIter step n m (tablesFill step n m t) := rfl
    rw [heq]
    refine ⟨f1, f2, ?_⟩
    intro j hj
    rcases Nat.lt_succ_iff_lt_or_eq.mp hj with hj2 | rfl
    · have hjm : j ≠ m := by omega
      have hjmir : j ≠ n - 1 - m := by omega
      have hmirm : n - 1 - j ≠ m := by omega
      have hmirmir : n - 1 - j ≠ n - 1 - m := by omega
      obtain ⟨p1, p2⟩ := fpres j hjm hjmir
      obtain ⟨q1, q2⟩ := fpres (n - 1 - j) hmirm hmirmir
      obtain ⟨a1, a2, a3, a4⟩ := ihj j hj2
      exact ⟨by rw [p1, a1], by rw [q1, a2], by rw [p2, a3], by rw [q2, a4]⟩
    · exact ⟨fk, fmir, sk, smir⟩

/-- The facts every claim about a derived composite table family needs.  `n` is
the (even) table length and `s` the hard-coded step constant of the family; the
numeric hypotheses are checked once per family. -/
lemma table_properties (n : ℕ) (s : ℚ) (heven : n % 2 = 0) (hn : 0 < n)
    (hs : 1 / 255 ≤ s) (hhalf : ((n / 2 : ℕ) : ℚ) * s < 1)
    (hfull : (n : ℚ) * s + 1 / 255 ≤ 1) :
    (tablesFill s n (n / 2) (List.replicate n 0, List.replicate n 0)).1.length = n ∧
    (tablesFill s n (n / 2) (List.replicate n 0, List.replicate n 0)).2.length = n ∧
    tableSymmetric (tablesFill s n (n / 2) (List.replicate n 0, List.replicate n 0)).1
      (tablesFill s n (n / 2) (List.replicate n 0, List.replicate n 0)).2 n ∧
    tableBuiltFrom (tablesFill s n (n / 2) (List.replicate n 0, List.replicate n 0)).1
      (tablesFill s n (n / 2) (List.replicate n 0, List.replicate n 0)).2 n s ∧
    List.Chain' lumaGap
      (tablesFill s n (n / 2) (List.replicate n 0, List.replicate n 0)).1 ∧
    List.Forall (fun x => 0 < x ∧ x < 1)
      (tablesFill s n (n / 2) (List.replicate n 0, List.replicate n 0)).1 := by
  obtain ⟨hL, hS, hij⟩ := tablesFill_spec s n (n / 2)
    (List.replicate n 0, List.replicate n 0) (by simp) (by simp) (by omega)
  set L := (tablesFill s n (n / 2) (List.replicate n 0, List.replicate n 0)).1
  set S := (tablesFill s n (n / 2) (List.replicate n 0, List.replicate n 0)).2
  have hs0 : (0 : ℚ) < s := lt_of_lt_of_le (by norm_num) hs
  have hval : ∀ j, j < n →
      L.getD j 0 = if j < n / 2 then ((j : ℚ) + 1) * s
        else 1 - ((n - j : ℕ) : ℚ) * s := by
    intro j hj
    by_cases hjh : j < n / 2
    · rw [if_pos hjh]
      exact (hij j hjh).1
    · rw [if_neg hjh]
      have hj2 : n - 1 - j < n / 2 := by omega
      have hidx : n - 1 - (n - 1 - j) = j := by omega
      have hcast : ((n - 1 - j : ℕ) : ℚ) + 1 = ((n - j : ℕ) : ℚ) := by
        have hnat : (n - 1 - j) + 1 = n - j := by omega
        exact_mod_cast hnat
      have h3 := (hij (n - 1 - j) hj2).2.1
      rw [hidx] at h3
      rw [h3, hcast]
  have hsval : ∀ j, j < n →
      S.getD j 0 = if j < n / 2 then ((j : ℚ) + 1) * s
        else ((n - j : ℕ) : ℚ) * s := by
    intro j hj
    by_cases hjh : j < n / 2
    · rw [if_pos hjh]
      exact (hij j hjh).2.2.1
    · rw [if_neg hjh]
      have hj2 : n - 1 - j < n / 2 := by omega
      have hidx : n - 1 - (n - 1 - j) = j := by omega
      have hcast : ((n - 1 - j : ℕ) : ℚ) + 1 = ((n - j : ℕ) : ℚ) := by
        have hnat : (n - 1 - j) + 1 = n - j := by omega
        exact_mod_cast hnat
      have h3 := (hij (n - 1 - j) hj2).2.2.2
      rw [hidx] at h3
      rw [h3, hcast]
  have hcastN2 : (n : ℚ) = 2 * ((n / 2 : ℕ) : ℚ) := by
    have hnat : n = 2 * (n / 2) := by omega
    exact_mod_cast hnat
  refine ⟨hL, hS, ?_, ?_, ?_, ?_⟩
  · intro k hk
    have hmir : n - 1 - k < n := by omega
    by_cases hkh : k < n / 2
    · have hmirh : ¬(n - 1 - k < n / 2) := by omega
      have e1 : (n - (n - 1 - k) : ℕ) = k + 1 := by omega
      constructor
      · rw [hval k hk, hval (n - 1 - k) hmir, if_pos hkh, if_neg hmirh, e1]
        push_cast
        ring
      · rw [hsval k hk, hsval (n - 1 - k) hmir, if_pos hkh, if_neg hmirh, e1]
        push_cast
        ring
    · have hmirh : n - 1 - k < n / 2 := by omega
      have e1 : (n - k : ℕ) = (n - 1 - k) + 1 := by omega
      constructor
      · rw [hval k hk, hval (n - 1 - k) hmir, if_neg hkh, if_pos hmirh, e1]
        push_cast
        ring
      · rw [hsval k hk, hsval (n - 1 - k) hmir, if_neg hkh, if_pos hmirh, e1]
        push_cast
        ring
  · intro k hk
    have h4 := hij k hk
    refine ⟨h4.1, ?_, ?_, ?_⟩
    · rw [h4.2.1, h4.1]
    · rw [h4.2.2.1, h4.1]
    · rw [h4.2.2.2, h4.2.2.1]
  · rw [List.chain'_iff_get]
    intro i hi
    have hget : ∀ (j : ℕ) (hj : j < L.length), L.get ⟨j, hj⟩ = L.getD j 0 := by
      intro j hj
      rw [List.get_eq_getElem, List.getD_eq_getElem _ _ hj]
    rw [hget, hget]
    rw [hL] at hi
    have hin : i < n := by omega
    have hin1 : i + 1 < n := by omega
    rw [hval i hin, hval (i + 1) hin1]
    by_cases h1 : i + 1 < n / 2
    · have h0 : i < n / 2 := by omega
      rw [if_pos h0, if_pos h1]
      have hc : ((i : ℚ) + 1) + 1 ≤ ((n / 2 : ℕ) : ℚ) := by
        have hnat : (i + 2 : ℕ) ≤ n / 2 := by omega
        exact_mod_cast hnat
      have hm1 : (((i : ℚ) + 1) + 1) * s ≤ ((n / 2 : ℕ) : ℚ) * s :=
        mul_le_mul_of_nonneg_right hc (le_of_lt hs0)
      have hexp : (((i : ℚ) + 1) + 1) * s = ((i : ℚ) + 1) * s + s := by ring
      push_cast
      refine ⟨mul_nonneg (by positivity) (le_of_lt hs0), ?_, ?_⟩
      · push_cast at hexp
        linarith [hs]
      · push_cast at hm1
        linarith [hhalf]
    · by_cases h0 : i < n / 2
      · rw [if_pos h0, if_neg h1]
        have e1 : ((i : ℚ) + 1) = ((n / 2 : ℕ) : ℚ) := by
          have hnat : i + 1 = n / 2 := by omega
          exact_mod_cast hnat
        have e2 : ((n - (i + 1) : ℕ) : ℚ) = ((n / 2 : ℕ) : ℚ) := by
          have hnat : n - (i + 1) = n / 2 := by omega
          exact_mod_cast hnat
        rw [e1, e2]
        have hN2 : (0 : ℚ) ≤ ((n / 2 : ℕ) : ℚ) * s :=
          mul_nonneg (by positivity) (le_of_lt hs0)
        have hf2 := hfull
        rw [hcastN2] at hf2
        exact ⟨hN2, by linarith, by linarith⟩
      · rw [if_neg h0, if_neg h1]
        have e3 : ((n - i : ℕ) : ℚ) = ((n - (i + 1) : ℕ) : ℚ) + 1 := by
          have hnat : n - i = (n - (i + 1)) + 1 := by omega
          exact_mod_cast hnat
        have hub : ((n - i : ℕ) : ℚ) ≤ ((n / 2 : ℕ) : ℚ) := by
          have hnat : n - i ≤ n / 2 := by omega
          exact_mod_cast hnat
        have hub2 : ((n - i : ℕ) : ℚ) * s ≤ ((n / 2 : ℕ) : ℚ) * s :=
          mul_le_mul_of_nonneg_right hub (le_of_lt hs0)
        have hnn : (0 : ℚ) ≤ ((n - (i + 1) : ℕ) : ℚ) * s :=
          mul_nonneg (by positivity) (le_of_lt hs0)
        have hexp : ((n - i : ℕ) : ℚ) * s = ((n - (i + 1) : ℕ) : ℚ) * s + s := by
          rw [e3]
          ring
        exact ⟨by linarith [hhalf], by linarith [hs], by linarith⟩
  · rw [List.forall_iff_forall_mem]
    intro x hx
    obtain ⟨j, hj, rfl⟩ := List.mem_iff_getElem.mp hx
    have hjn : j < n := by rw [hL] at hj; exact hj
    have hgd : L[j] = L.getD j 0 := (List.getD_eq_getElem _ _ hj).symm
    rw [hgd, hval j hjn]
    by_cases hjh : j < n / 2
    · rw [if_pos hjh]
      have hc : ((j : ℚ) + 1) ≤ ((n / 2 : ℕ) : ℚ) := by
        have hnat : j + 1 ≤ n / 2 := by omega
        exact_mod_cast hnat
      have hm1 : ((j : ℚ) + 1) * s ≤ ((n / 2 : ℕ) : ℚ) * s :=
        mul_le_mul_of_nonneg_right hc (le_of_lt hs0)
      exact ⟨mul_pos (by positivity) hs0, by linarith [hhalf]⟩
    · rw [if_neg hjh]
      have hub : ((n - j : ℕ) : ℚ) ≤ ((n / 2 : ℕ) : ℚ) := by
        have hnat : n - j ≤ n / 2 := by omega
        exact_mod_cast hnat
      have hub2 : ((n - j : ℕ) : ℚ) * s ≤ ((n / 2 : ℕ) : ℚ) * s :=
        mul_le_mul_of_nonneg_right hub (le_of_lt hs0)
      have h1s : (1 : ℚ) ≤ ((n - j : ℕ) : ℚ) := by
        have hnat : 1 ≤ n - j := by omega
        exact_mod_cast hnat
      have hpos : (0 : ℚ) < ((n - j : ℕ) : ℚ) * s :=
        mul_pos (by linarith) hs0
      exact ⟨by linarith [hhalf], by linarith⟩

/-! #### The six table families. -/

lemma composite_06_properties :
    S_composite_06_lum.length = 6 ∧ S_composite_06_sat.length = 6 ∧
    tableSymmetric S_composite_06_lum S_composite_06_sat 6 ∧
    tableBuiltFrom S_composite_06_lum S_composite_06_sat 6 COMPOSITE_06_TABLE_STEP ∧
    List.Chain' lumaGap S_composite_06_lum ∧
    List.Forall (fun x => 0 < x ∧ x < 1) S_composite_06_lum :=
  table_properties 6 COMPOSITE_06_TABLE_STEP (by norm_num) (by norm_num)
    (by norm_num [COMPOSITE_06_TABLE_STEP]) (by norm_num [COMPOSITE_06_TABLE_STEP])
    (by norm_num [COMPOSITE_06_TABLE_STEP])

lemma composite_12_properties :
    S_composite_12_lum.length = 12 ∧ S_composite_12_sat.length = 12 ∧
    tableSymmetric S_composite_12_lum S_composite_12_sat 12 ∧
    tableBuiltFrom S_composite_12_lum S_composite_12_sat 12 COMPOSITE_12_TABLE_STEP ∧
    List.Chain' lumaGap S_composite_12_lum ∧
    List.Forall (fun x => 0 < x ∧ x < 1) S_composite_12_lum :=
  table_properties 12 COMPOSITE_12_TABLE_STEP (by norm_num) (by norm_num)
    (by norm_num [COMPOSITE_12_TABLE_STEP]) (by norm_num [COMPOSITE_12_TABLE_STEP])
    (by norm_num [COMPOSITE_12_TABLE_STEP])

lemma composite_18_properties :
    S_composite_18_lum.length = 18 ∧ S_composite_18_sat.length = 18 ∧
    tableSymmetric S_composite_18_lum S_composite_18_sat 18 ∧
    tableBuiltFrom S_composite_18_lum S_composite_18_sat 18 COMPOSITE_18_TABLE_STEP ∧
    List.Chain' lumaGap S_composite_18_lum ∧
    List.Forall (fun x => 0 < x ∧ x < 1) S_composite_18_lum :=
  table_properties 18 COMPOSITE_18_TABLE_STEP (by norm_num) (by norm_num)
    (by norm_num [COMPOSITE_18_TABLE_STEP]) (by norm_num [COMPOSITE_18_TABLE_STEP])
    (by norm_num [COMPOSITE_18_TABLE_STEP])

lemma composite_24_properties :
    S_composite_24_lum.length = 24 ∧ S_composite_24_sat.length = 24 ∧
    tableSymmetric S_composite_24_lum S_composite_24_sat 24 ∧
    tableBuiltFrom S_composite_24_lum S_composite_24_sat 24 COMPOSITE_24_TABLE_STEP ∧
    List.Chain' lumaGap S_composite_24_lum ∧
    List.Forall (fun x => 0 < x ∧ x < 1) S_composite_24_lum :=
  table_properties 24 COMPOSITE_24_TABLE_STEP (by norm_num) (by norm_num)
    (by norm_num [COMPOSITE_24_TABLE_STEP]) (by norm_num [COMPOSITE_24_TABLE_STEP])
    (by norm_num [COMPOSITE_24_TABLE_STEP])

lemma composite_36_properties :
    S_composite_36_lum.length = 36 ∧ S_composite_36_sat.length = 36 ∧
    tableSymmetric S_composite_36_lum S_composite_36_sat 36 ∧
    tableBuiltFrom S_composite_36_lum S_composite_36_sat 36 COMPOSITE_36_TABLE_STEP ∧
    List.Chain' lumaGap S_composite_36_lum ∧
    List.Forall (fun x => 0 < x ∧ x < 1) S_composite_36_lum :=
  table_properties 36 COMPOSITE_36_TABLE_STEP (by norm_num) (by norm_num)
    (by norm_num [COMPOSITE_36_TABLE_STEP]) (by norm_num [COMPOSITE_36_TABLE_STEP])
    (by norm_num [COMPOSITE_36_TABLE_STEP])

lemma composite_48_properties :
    S_composite_48_lum.length = 48 ∧ S_composite_48_sat.length = 48 ∧
    tableSymmetric S_composite_48_lum S_composite_48_sat 48 ∧
    tableBuiltFrom S_composite_48_lum S_composite_48_sat 48 COMPOSITE_48_TABLE_STEP ∧
    List.Chain' lumaGap S_composite_48_lum ∧
    List.Forall (fun x => 0 < x ∧ x < 1) S_composite_48_lum :=
  table_properties 48 COMPOSITE_48_TABLE_STEP (by norm_num) (by norm_num)
    (by norm_num [COMPOSITE_48_TABLE_STEP]) (by norm_num [COMPOSITE_48_TABLE_STEP])
    (by norm_num [COMPOSITE_48_TABLE_STEP])

/-- C3, counterexample: the hard-coded 4-entry approximate-NES table, selectable
by the ApproxNes sources, is not symmetric: at tap 0 the outer luma pair sums to
21/20 = 1.05 (not 1, and 0.05 is far beyond floating-point tolerance), and the
outer saturation pair is 1/5 versus 3/20.  The hard-coded exact NES table
violates the property as well (its outer luma pair sums to 1.057). -/
theorem hardcoded_table_symmetry_fails :
    ¬ tableSymmetric S_approx_nes_lum S_approx_nes_sat 4 ∧
    S_approx_nes_lum.getD 0 0 + S_approx_nes_lum.getD 3 0 = 21 / 20 ∧
    S_approx_nes_sat.getD 0 0 = 1 / 5 ∧ S_approx_nes_sat.getD 3 0 = 3 / 20 ∧
    S_nes_lum.getD 0 0 + S_nes_lum.getD 3 0 = 1057 / 1000 := by
  refine ⟨fun h => ?_, by norm_num [S_approx_nes_lum], by norm_num [S_approx_nes_sat],
    by norm_num [S_approx_nes_sat], by norm_num [S_nes_lum]⟩
  have h0 := (h 0 (by norm_num)).2
  norm_num [S_approx_nes_sat] at h0

/-- C3, amended: the six voltage tables actually derived by
`generate_voltage_tables` (lengths 6, 12, 18, 24, 36, 48) are symmetric:
`luma[k] + luma[n-1-k] = 1` exactly and `saturation[k] = saturation[n-1-k]`;
the hard-coded 4-entry NES tables violate both equalities at the outer taps. -/
theorem derived_tables_symmetric :
    tableSymmetric S_composite_06_lum S_composite_06_sat 6 ∧
    tableSymmetric S_composite_12_lum S_composite_12_sat 12 ∧
    tableSymmetric S_composite_18_lum S_composite_18_sat 18 ∧
    tableSymmetric S_composite_24_lum S_composite_24_sat 24 ∧
    tableSymmetric S_composite_36_lum S_composite_36_sat 36 ∧
    tableSymmetric S_composite_48_lum S_composite_48_sat 48 :=
  ⟨composite_06_properties.2.2.1, composite_12_properties.2.2.1,
    composite_18_properties.2.2.1, composite_24_properties.2.2.1,
    composite_36_properties.2.2.1, composite_48_properties.2.2.1⟩

/-- C4, counterexample: the 12-entry composite table does not satisfy
`luma[k] = (k+1) * (1 / (n + 2))`: already at `k = 0` the stored value is the
15-digit decimal `0.071428571428571`, which is strictly below `1 / 14`
(the difference is below `10 ^ (-14)` but nonzero). -/
theorem composite_12_step_not_exact :
    S_composite_12_lum.getD 0 0 ≠ ((0 : ℚ) + 1) * (1 / (12 + 2)) ∧
    S_composite_12_lum.getD 0 0 < 1 / 14 ∧
    1 / 14 - S_composite_12_lum.getD 0 0 < 1 / 10 ^ 14 := by
  have h0 := (composite_12_properties.2.2.2.1 0 (by norm_num)).1
  refine ⟨?_, ?_, ?_⟩ <;>
    · rw [h0]
      norm_num [COMPOSITE_12_TABLE_STEP]

/-- C4, amended: every derived composite table satisfies the stated equations
with `tableStep` being the hard-coded step constant of its family; that
constant is exactly `1 / (n + 2)` for the 6-, 18- and 48-entry families, while
for the 12-, 24- and 36-entry families it is a 15-significant-digit decimal
truncation of `1 / (n + 2)` (smaller, by less than `10 ^ (-14)`). -/
theorem derived_tables_built_from_steps :
    tableBuiltFrom S_composite_06_lum S_composite_06_sat 6 COMPOSITE_06_TABLE_STEP ∧
    tableBuiltFrom S_composite_12_lum S_composite_12_sat 12 COMPOSITE_12_TABLE_STEP ∧
    tableBuiltFrom S_composite_18_lum S_composite_18_sat 18 COMPOSITE_18_TABLE_STEP ∧
    tableBuiltFrom S_composite_24_lum S_composite_24_sat 24 COMPOSITE_24_TABLE_STEP ∧
    tableBuiltFrom S_composite_36_lum S_composite_36_sat 36 COMPOSITE_36_TABLE_STEP ∧
    tableBuiltFrom S_composite_48_lum S_composite_48_sat 48 COMPOSITE_48_TABLE_STEP ∧
    COMPOSITE_06_TABLE_STEP = 1 / (6 + 2) ∧
    COMPOSITE_18_TABLE_STEP = 1 / (18 + 2) ∧
    COMPOSITE_48_TABLE_STEP = 1 / (48 + 2) ∧
    COMPOSITE_12_TABLE_STEP < 1 / (12 + 2) ∧
    1 / (12 + 2) - COMPOSITE_12_TABLE_STEP < 1 / 10 ^ 14 ∧
    COMPOSITE_24_TABLE_STEP < 1 / (24 + 2) ∧
    1 / (24 + 2) - COMPOSITE_24_TABLE_STEP < 1 / 10 ^ 14 ∧
    COMPOSITE_36_TABLE_STEP < 1 / (36 + 2) ∧
    1 / (36 + 2) - COMPOSITE_36_TABLE_STEP < 1 / 10 ^ 14 :=
  ⟨composite_06_properties.2.2.2.1, composite_12_properties.2.2.2.1,
    composite_18_properties.2.2.2.1, composite_24_properties.2.2.2.1,
    composite_36_properties.2.2.2.1, composite_48_properties.2.2.2.1,
    by norm_num [COMPOSITE_06_TABLE_STEP], by norm_num [COMPOSITE_18_TABLE_STEP],
    by norm_num [COMPOSITE_48_TABLE_STEP], by norm_num [COMPOSITE_12_TABLE_STEP],
    by norm_num [COMPOSITE_12_TABLE_STEP], by norm_num [COMPOSITE_24_TABLE_STEP],
    by norm_num [COMPOSITE_24_TABLE_STEP], by norm_num [COMPOSITE_36_TABLE_STEP],
    by norm_num [COMPOSITE_36_TABLE_STEP]⟩


/-! ### Closed form of a generation run.

`add_color` appends `mkColor` of its arguments whenever the list is below
capacity; the lemmas below evaluate the generator loops under the capacity
side conditions, giving an explicit description of the generated color list. -/

/-- Fold of `add_color` over a list of channel triples, the common shape of the
generator loops. -/
def appendFold {α : Type} (f : α → ℤ × ℤ × ℤ) (xs : List α) (st : PalState) : PalState :=
  xs.foldl (fun st x => add_color (f x).1 (f x).2.1 (f x).2.2 st) st

lemma add_color_ok (r g b : ℤ) (st : PalState) (h : st.colors.length < st.maxColors) :
    add_color r g b st = { st with colors := st.colors ++ [mkColor (r, g, b)] } := by
  unfold add_color
  rw [if_neg (by omega)]

lemma appendFold_ok {α : Type} (f : α → ℤ × ℤ × ℤ) :
    ∀ (xs : List α) (st : PalState), st.colors.length + xs.length ≤ st.maxColors →
      appendFold f xs st = { st with colors := st.colors ++ xs.map (fun x => mkColor (f x)) }
  | [], st => by
    intro h
    simp [appendFold]
  | x :: xs, st => by
    intro h
    have hlt : st.colors.length < st.maxColors := by
      have := h
      simp only [List.length_cons] at this
      omega
    have step1 : appendFold f (x :: xs) st
        = appendFold f xs (add_color (f x).1 (f x).2.1 (f x).2.2 st) := rfl
    rw [step1, add_color_ok (f x).1 (f x).2.1 (f x).2.2 st hlt,
      appendFold_ok f xs _ (by simp only [List.length_append, List.length_singleton,
        List.length_cons, List.length_nil] at h ⊢; omega)]
    simp

/-- The list of grey colors generated by `generate_palette_greys`. -/
def greysList (s : Source) : List color :=
  (List.range (tableLength s)).map (fun k =>
    mkColor (grey_channel ((lumaTable s).getD k 0),
             grey_channel ((lumaTable s).getD k 0),
             grey_channel ((lumaTable s).getD k 0)))

lemma greysList_length (s : Source) : (greysList s).length = tableLength s := by
  simp [greysList]

lemma greys_ok (s : Source) (st : PalState)
    (h : st.colors.length + tableLength s ≤ st.maxColors) :
    generate_palette_greys s st = { st with colors := st.colors ++ greysList s } := by
  have hb : generate_palette_greys s st
      = appendFold (fun k =>
          (grey_channel ((lumaTable s).getD k 0),
           grey_channel ((lumaTable s).getD k 0),
           grey_channel ((lumaTable s).getD k 0))) (List.range (tableLength s)) st := rfl
  rw [hb, appendFold_ok _ (List.range (tableLength s)) st (by simpa using h)]
  rfl

/-- The block of colors generated by one `generate_palette_hue` call with the
full modifier: one color per tap. -/
def hueBlock (T : Trig) (s : Source) (hue : ℕ) : List color :=
  (List.range (tableLength s)).map (fun k => mkColor (hue_tap_color T s hue k))

lemma hueBlock_length (T : Trig) (s : Source) (hue : ℕ) :
    (hueBlock T s hue).length = tableLength s := by
  simp [hueBlock]

lemma gen_hue_full_ok (T : Trig) (s : Source) (hue : ℕ) (st : PalState)
    (h1 : hue < 360) (h2 : st.colors.length + tableLength s ≤ st.maxColors) :
    generate_palette_hue T s hue HueModifier.full st
      = { st with colors := st.colors ++ hueBlock T s hue } := by
  have hb : generate_palette_hue T s hue HueModifier.full st
      = appendFold (hue_tap_color T s hue) (List.range' 0 (tableLength s)) st := by
    unfold generate_palette_hue
    rw [if_neg (by omega)]
    rfl
  rw [hb, ← List.range_eq_range',
    appendFold_ok (hue_tap_color T s hue) (List.range (tableLength s)) st (by simpa using h2)]
  rfl

/-- Colors produced by `count` iterations of the hue loop starting at `hue`. -/
def hueColorsFrom (T : Trig) (s : Source) (step : ℕ) : ℕ → ℕ → List color
  | 0, _ => []
  | count + 1, hue =>
      hueBlock T s hue ++ hueColorsFrom T s step count ((hue + step) % 360)

lemma hueColorsFrom_length (T : Trig) (s : Source) (step : ℕ) :
    ∀ count hue, (hueColorsFrom T s step count hue).length = count * tableLength s
  | 0, _ => by simp [hueColorsFrom]
  | count + 1, hue => by
    simp only [hueColorsFrom, List.length_append, hueBlock_length,
      hueColorsFrom_length T s step count]
    ring

lemma hueLoop_ok (T : Trig) (s : Source) (step : ℕ) :
    ∀ (count hue : ℕ) (st : PalState), hue < 360 →
      st.colors.length + count * tableLength s ≤ st.maxColors →
      hueLoop T s step count hue st
        = { st with colors := st.colors ++ hueColorsFrom T s step count hue }
  | 0, hue, st => by
    intro h1 h2
    simp [hueLoop, hueColorsFrom]
  | count + 1, hue, st => by
    intro h1 h2
    have hmul : (count + 1) * tableLength s = count * tableLength s + tableLength s :=
      Nat.succ_mul count (tableLength s)
    have hcap1 : st.colors.length + tableLength s ≤ st.maxColors := by omega
    have step1 : hueLoop T s step (count + 1) hue st
        = hueLoop T s step count ((hue + step) % 360)
            (generate_palette_hue T s hue HueModifier.full st) := rfl
    rw [step1, gen_hue_full_ok T s hue st h1 hcap1,
      hueLoop_ok T s step count ((hue + step) % 360) _
        (Nat.mod_lt _ (by norm_num))
        (by simp only [List.length_append, hueBlock_length]; omega)]
    simp [hueColorsFrom, List.append_assoc]

/-- Explicit description of the full color list generated for a source. -/
def paletteColors (T : Trig) (s : Source) : List color :=
  if s = Source.approx_nes ∨ s = Source.approx_nes_rotated then
    mkColor (0, 0, 0) :: (greysList s ++ mkColor (255, 255, 255) ::
      hueColorsFrom T s (hueStep s) (360 / hueStep s) (hueStart s))
  else
    greysList s ++ hueColorsFrom T s (hueStep s) (360 / hueStep s) 0

lemma run_approx (T : Trig) (s : Source)
    (hs : s = Source.approx_nes ∨ s = Source.approx_nes_rotated) :
    runPalette T s = ⟨paletteColors T s, maxColors s, false⟩ := by
  have hlen : tableLength s = 4 := by rcases hs with h | h <;> subst h <;> rfl
  have hmax : maxColors s = 64 := by rcases hs with h | h <;> subst h <;> rfl
  have hstep : hueStep s = 30 := by rcases hs with h | h <;> subst h <;> rfl
  have hstart : hueStart s < 360 := by
    rcases hs with h | h <;> subst h <;> decide
  unfold runPalette generate_palette_from_source
  rw [if_pos hs]
  rw [add_color_ok 0 0 0 _ (by simp [hmax]),
    greys_ok s _ (by simp [hmax, hlen]),
    add_color_ok 255 255 255 _ (by simp [hmax, hlen, greysList_length]),
    hueLoop_ok T s (hueStep s) (360 / hueStep s) (hueStart s) _ hstart
      (by simp [hmax, hlen, hstep, greysList_length])]
  simp [paletteColors, if_pos hs]

lemma run_composite (T : Trig) (s : Source)
    (hs : ¬(s = Source.approx_nes ∨ s = Source.approx_nes_rotated))
    (hcap : tableLength s + (360 / hueStep s) * tableLength s ≤ maxColors s) :
    runPalette T s = ⟨paletteColors T s, maxColors s, false⟩ := by
  unfold runPalette generate_palette_from_source
  rw [if_neg hs]
  rw [greys_ok s _ (by simpa using Nat.le_trans (Nat.le_add_right _ _) hcap),
    hueLoop_ok T s (hueStep s) (360 / hueStep s) 0 _ (by norm_num)
      (by simp only [List.nil_append, greysList_length]; omega)]
  simp [paletteColors, if_neg hs]

/-- Closed form of a full run: for every source and every trigonometry oracle
the run produces exactly `paletteColors`, never trips the capacity check, and
keeps the capacity of the source. -/
lemma run_closed (T : Trig) (s : Source) :
    runPalette T s = ⟨paletteColors T s, maxColors s, false⟩ := by
  cases s
  case approx_nes => exact run_approx T _ (Or.inl rfl)
  case approx_nes_rotated => exact run_approx T _ (Or.inr rfl)
  all_goals exact run_composite T _ (by simp) (by decide)


/-! ### Per-table luma facts for the selectable tables. -/

lemma gap_approx_nes : List.Chain' lumaGap S_approx_nes_lum := by
  simp only [S_approx_nes_lum, List.chain'_cons, List.chain'_singleton, and_true, lumaGap]
  norm_num

lemma forall01_approx_nes : List.Forall (fun x => 0 < x ∧ x < 1) S_approx_nes_lum := by
  simp only [S_approx_nes_lum, List.forall_cons, List.Forall, and_true]
  norm_num

lemma luma_facts (s : Source) :
    List.Chain' lumaGap (lumaTable s) ∧
    List.Forall (fun x => 0 < x ∧ x < 1) (lumaTable s) := by
  cases s
  case approx_nes => exact ⟨gap_approx_nes, forall01_approx_nes⟩
  case approx_nes_rotated => exact ⟨gap_approx_nes, forall01_approx_nes⟩
  case composite_06_0p75x =>
    exact ⟨composite_06_properties.2.2.2.2.1, composite_06_properties.2.2.2.2.2⟩
  case composite_06_3x =>
    exact ⟨composite_06_properties.2.2.2.2.1, composite_06_properties.2.2.2.2.2⟩
  case composite_12_1p50x =>
    exact ⟨composite_12_properties.2.2.2.2.1, composite_12_properties.2.2.2.2.2⟩
  case composite_12_6x =>
    exact ⟨composite_12_properties.2.2.2.2.1, composite_12_properties.2.2.2.2.2⟩
  case composite_18_1x =>
    exact ⟨composite_18_properties.2.2.2.2.1, composite_18_properties.2.2.2.2.2⟩
  case composite_24_0p75x =>
    exact ⟨composite_24_properties.2.2.2.2.1, composite_24_properties.2.2.2.2.2⟩
  case composite_24_3x =>
    exact ⟨composite_24_properties.2.2.2.2.1, composite_24_properties.2.2.2.2.2⟩
  case composite_36_2x =>
    exact ⟨composite_36_properties.2.2.2.2.1, composite_36_properties.2.2.2.2.2⟩
  case composite_48_1p50x =>
    exact ⟨composite_48_properties.2.2.2.2.1, composite_48_properties.2.2.2.2.2⟩

lemma tableLength_eq (s : Source) : (lumaTable s).length = tableLength s := by
  cases s
  case approx_nes => rfl
  case approx_nes_rotated => rfl
  case composite_06_0p75x => exact composite_06_properties.1
  case composite_06_3x => exact composite_06_properties.1
  case composite_12_1p50x => exact composite_12_properties.1
  case composite_12_6x => exact composite_12_properties.1
  case composite_18_1x => exact composite_18_properties.1
  case composite_24_0p75x => exact composite_24_properties.1
  case composite_24_3x => exact composite_24_properties.1
  case composite_36_2x => exact composite_36_properties.1
  case composite_48_1p50x => exact composite_48_properties.1

/-! ### Bounds and monotonicity of the grey channel computation. -/

lemma grey_channel_bounds (l : ℚ) (h0 : 0 ≤ l) (h1 : l ≤ 1) :
    0 ≤ grey_channel l ∧ grey_channel l ≤ 255 := by
  unfold grey_channel truncQ
  rw [if_pos (by linarith)]
  constructor
  · exact Int.floor_nonneg.mpr (by linarith)
  · have h3 : (⌊(l * 255 + 0.5 : ℚ)⌋ : ℤ) < 256 :=
      Int.floor_lt.mpr (by push_cast; linarith)
    omega

lemma grey_mono (a b : ℚ) (hg : lumaGap a b) : grey_channel a < grey_channel b := by
  obtain ⟨h0, hgap, hb1⟩ := hg
  unfold grey_channel truncQ
  rw [if_pos (by linarith), if_pos (by linarith)]
  have h1 : (a * 255 + 0.5 : ℚ) + 1 ≤ b * 255 + 0.5 := by linarith
  have h2 : ⌊(a * 255 + 0.5 : ℚ) + 1⌋ ≤ ⌊(b * 255 + 0.5 : ℚ)⌋ := Int.floor_le_floor h1
  rw [Int.floor_add_one] at h2
  omega

lemma ucharOfInt_le (x : ℤ) : ucharOfInt x ≤ 255 := by
  unfold ucharOfInt
  omega

lemma ucharOfInt_lt (x y : ℤ) (h0 : 0 ≤ x) (hxy : x < y) (hy : y ≤ 255) :
    ucharOfInt x < ucharOfInt y := by
  unfold ucharOfInt
  omega

lemma range_map_getD {α β : Type} (d : α) (f : α → β) (l : List α) :
    (List.range l.length).map (fun k => f (l.getD k d)) = l.map f := by
  induction l with
  | nil => rfl
  | cons a t ih =>
    rw [List.length_cons, List.range_succ_eq_map, List.map_cons, List.map_map]
    simp only [List.getD_cons_zero, Function.comp_def, Nat.succ_eq_add_one,
      List.getD_cons_succ, List.map_cons]
    rw [ih]

lemma greysList_map (s : Source) :
    greysList s = (lumaTable s).map
      (fun l => mkColor (grey_channel l, grey_channel l, grey_channel l)) := by
  unfold greysList
  rw [← tableLength_eq s]
  exact range_map_getD 0
    (fun l => mkColor (grey_channel l, grey_channel l, grey_channel l)) (lumaTable s)

/-- C10: for every voltage table selectable by a valid source, the luma values
strictly increase with the tap index and lie strictly inside (0, 1), the scaled
values lie strictly inside (0, 255), and the grey colors are appended in
strictly increasing brightness. -/
theorem luma_tables_strictly_increasing :
    ∀ s : Source,
      List.Chain' (· < ·) (lumaTable s) ∧
      List.Forall (fun x => 0 < x ∧ x < 1) (lumaTable s) ∧
      List.Forall (fun x => 0 < x * 255 ∧ x * 255 < 255) (lumaTable s) ∧
      List.Chain' (fun c1 c2 : color => c1.r < c2.r ∧ c1.g < c2.g ∧ c1.b < c2.b)
        (greysList s) := by
  intro s
  obtain ⟨hgap, h01⟩ := luma_facts s
  refine ⟨hgap.imp ?_, h01, h01.imp ?_, ?_⟩
  · intro a b hab
    obtain ⟨u0, ugap, u1⟩ := hab
    linarith
  · intro x hx
    constructor
    · nlinarith [hx.1]
    · nlinarith [hx.2]
  · rw [greysList_map, List.chain'_map]
    refine hgap.imp ?_
    intro a b hab
    have ha1 : a ≤ 1 := by
      obtain ⟨u0, ugap, u1⟩ := hab
      linarith
    have hb0 : (0 : ℚ) ≤ b := by
      obtain ⟨u0, ugap, u1⟩ := hab
      linarith
    have hga := grey_channel_bounds a hab.1 ha1
    have hgb := grey_channel_bounds b hb0 hab.2.2
    have hmono := grey_mono a b hab
    exact ⟨ucharOfInt_lt _ _ hga.1 hmono hgb.2,
      ucharOfInt_lt _ _ hga.1 hmono hgb.2,
      ucharOfInt_lt _ _ hga.1 hmono hgb.2⟩

/-! ### Shape of the generated colors: everything stored went through
`mkColor`. -/

lemma clampChannel_bounds (x : ℤ) : 0 ≤ clampChannel x ∧ clampChannel x ≤ 255 := by
  unfold clampChannel
  split_ifs <;> omega

lemma mem_hueColorsFrom_shape (T : Trig) (s : Source) (step : ℕ) :
    ∀ (count hue : ℕ) (c : color), c ∈ hueColorsFrom T s step count hue →
      ∃ t, c = mkColor t
  | 0, hue, c => by
    intro hc
    simp [hueColorsFrom] at hc
  | count + 1, hue, c => by
    intro hc
    rw [hueColorsFrom, List.mem_append] at hc
    rcases hc with hc | hc
    · simp only [hueBlock, List.mem_map, List.mem_range] at hc
      obtain ⟨k, hk, rfl⟩ := hc
      exact ⟨_, rfl⟩
    · exact mem_hueColorsFrom_shape T s step count ((hue + step) % 360) c hc

lemma mem_paletteColors_shape (T : Trig) (s : Source) :
    ∀ c ∈ paletteColors T s, ∃ t, c = mkColor t := by
  intro c hc
  unfold paletteColors at hc
  split_ifs at hc
  · rw [List.mem_cons, List.mem_append, List.mem_cons] at hc
    rcases hc with rfl | hc | rfl | hc
    · exact ⟨_, rfl⟩
    · rw [greysList_map, List.mem_map] at hc
      obtain ⟨l, hl, rfl⟩ := hc
      exact ⟨_, rfl⟩
    · exact ⟨_, rfl⟩
    · exact mem_hueColorsFrom_shape T s _ _ _ c hc
  · rw [List.mem_append] at hc
    rcases hc with hc | hc
    · rw [greysList_map, List.mem_map] at hc
      obtain ⟨l, hl, rfl⟩ := hc
      exact ⟨_, rfl⟩
    · exact mem_hueColorsFrom_shape T s _ _ _ c hc

/-- C9: every channel value the generator computes lies in [0, 255]: the
unclamped grey computation stays in range for every tap of every selectable
table, the clamped hue channels stay in range for all possible luma, i and q
values, and consequently every stored color of every run has channels at
most 255. -/
theorem generated_channels_in_range :
    (∀ s : Source, ∀ k, k < tableLength s →
        0 ≤ grey_channel ((lumaTable s).getD k 0) ∧
        grey_channel ((lumaTable s).getD k 0) ≤ 255) ∧
    (∀ y i q : ℚ,
        (0 ≤ hue_channel_r y i q ∧ hue_channel_r y i q ≤ 255) ∧
        (0 ≤ hue_channel_g y i q ∧ hue_channel_g y i q ≤ 255) ∧
        (0 ≤ hue_channel_b y i q ∧ hue_channel_b y i q ≤ 255)) ∧
    (∀ (T : Trig) (s : Source) (j : ℕ),
        ((runPalette T s).colors.getD j ⟨0, 0, 0⟩).r ≤ 255 ∧
        ((runPalette T s).colors.getD j ⟨0, 0, 0⟩).g ≤ 255 ∧
        ((runPalette T s).colors.getD j ⟨0, 0, 0⟩).b ≤ 255) := by
  refine ⟨?_, ?_, ?_⟩
  · intro s k hk
    have hk2 : k < (lumaTable s).length := by rw [tableLength_eq s]; exact hk
    have hmem : (lumaTable s).getD k 0 ∈ lumaTable s := by
      rw [List.getD_eq_getElem _ _ hk2]
      exact List.getElem_mem hk2
    have h01 := (List.forall_iff_forall_mem.mp (luma_facts s).2) _ hmem
    exact grey_channel_bounds _ (le_of_lt h01.1) (le_of_lt h01.2)
  · intro y i q
    exact ⟨clampChannel_bounds _, clampChannel_bounds _, clampChannel_bounds _⟩
  · intro T s j
    rw [run_closed]
    show ((paletteColors T s).getD j ⟨0, 0, 0⟩).r ≤ 255 ∧ _ ∧ _
    by_cases hj : j < (paletteColors T s).length
    · rw [List.getD_eq_getElem _ _ hj]
      obtain ⟨t, ht⟩ := mem_paletteColors_shape T s _ (List.getElem_mem hj)
      rw [ht]
      exact ⟨ucharOfInt_le _, ucharOfInt_le _, ucharOfInt_le _⟩
    · rw [List.getD_eq_default _ _ (le_of_not_lt hj)]
      exact ⟨by norm_num, by norm_num, by norm_num⟩

/-- C8: for every source and every trigonometry oracle the generator stays
within the capacity chosen for that source in `main`, so the capacity-exceeded
branch of `add_color` is never taken (the `dropped` flag stays false). -/
theorem capacity_branch_unreachable :
    ∀ (T : Trig) (s : Source),
      (runPalette T s).dropped = false ∧
      (runPalette T s).colors.length ≤ maxColors s := by
  intro T s
  rw [run_closed]
  refine ⟨rfl, ?_⟩
  show (paletteColors T s).length ≤ maxColors s
  cases s <;>
    simp [paletteColors, greysList_length, hueColorsFrom_length,
      tableLength, hueStep, maxColors, hueStart]

/-- C1: for the ApproxNes source and its rotated variant (table length 4), the
run appends exactly 1 + 4 + 1 + 12*4 = 54 colors in the fixed order pure black,
the four greys, pure white, then the twelve hue blocks of four colors each; the
first color is exactly (0,0,0) and the sixth, at position 2 + tableLength, is
exactly (255,255,255). -/
theorem approx_nes_palette_layout (T : Trig) (s : Source)
    (hs : s = Source.approx_nes ∨ s = Source.approx_nes_rotated) :
    (runPalette T s).colors =
      mkColor (0, 0, 0) :: (greysList s ++ mkColor (255, 255, 255) ::
        hueColorsFrom T s (hueStep s) (360 / hueStep s) (hueStart s)) ∧
    tableLength s = 4 ∧
    (greysList s).length = tableLength s ∧
    (hueColorsFrom T s (hueStep s) (360 / hueStep s) (hueStart s)).length
      = 12 * tableLength s ∧
    (runPalette T s).colors.length = 1 + tableLength s + 1 + 12 * tableLength s ∧
    (runPalette T s).colors.getD 0 ⟨0, 0, 0⟩ = ⟨0, 0, 0⟩ ∧
    (runPalette T s).colors.getD (1 + tableLength s) ⟨0, 0, 0⟩ = ⟨255, 255, 255⟩ := by
  have hlen : tableLength s = 4 := by rcases hs with h | h <;> subst h <;> rfl
  have hstep : hueStep s = 30 := by rcases hs with h | h <;> subst h <;> rfl
  have hpc : paletteColors T s
      = mkColor (0, 0, 0) :: (greysList s ++ mkColor (255, 255, 255) ::
          hueColorsFrom T s (hueStep s) (360 / hueStep s) (hueStart s)) := by
    unfold paletteColors
    rw [if_pos hs]
  have hcols : (runPalette T s).colors
      = mkColor (0, 0, 0) :: (greysList s ++ mkColor (255, 255, 255) ::
          hueColorsFrom T s (hueStep s) (360 / hueStep s) (hueStart s)) := by
    rw [run_closed]
    exact hpc
  have hblack : mkColor (0, 0, 0) = (⟨0, 0, 0⟩ : color) := by decide
  have hwhite : mkColor (255, 255, 255) = (⟨255, 255, 255⟩ : color) := by decide
  have hhl : (hueColorsFrom T s (hueStep s) (360 / hueStep s) (hueStart s)).length
      = 12 * tableLength s := by
    rw [hueColorsFrom_length, hstep]
  refine ⟨hcols, hlen, greysList_length s, hhl, ?_, ?_, ?_⟩
  · rw [hcols]
    simp only [List.length_cons, List.length_append, greysList_length, hhl]
    omega
  · rw [hcols, List.getD_cons_zero, hblack]
  · rw [hcols]
    have : (1 : ℕ) + tableLength s = (greysList s).length + 1 := by
      rw [greysList_length]
      omega
    rw [this, List.getD_cons_succ, List.getD_append_right _ _ _ _ (Nat.le_refl _)]
    simp [hwhite]


/-! ### Claim C2: the YIQ transform against its specification. -/

/-- Channel computation as the specification words it: round half-up via
`floor(x * 255 + 0.5)`, then clamp to [0, 255]. -/
def specRoundClamp (x : ℚ) : ℤ := clampChannel ⌊x * 255 + 0.5⌋

lemma clamp_trunc_eq_clamp_floor (x : ℚ) :
    clampChannel (truncQ x) = clampChannel ⌊x⌋ := by
  unfold truncQ
  split_ifs with h
  · rfl
  · push_neg at h
    have hceil : (⌈x⌉ : ℤ) ≤ 0 := Int.ceil_le.mpr (by push_cast; linarith)
    have hfloor : (⌊x⌋ : ℤ) ≤ 0 := le_trans (Int.floor_le_ceil x) hceil
    unfold clampChannel
    split_ifs <;> omega

/-- C2: for every (hue, tap) pair the generator processes, with
`y = luma[tap]`, `i = saturation[tap] * cos(angle)` and
`q = saturation[tap] * sin(angle)`, the appended channel triple equals the
specification formula: each linear combination scaled by 255, rounded half-up
via floor, then clamped to [0, 255].  (The C code truncates toward zero before
clamping; truncation and floor agree after clamping, which is what makes the
specified floor semantics correct.) -/
theorem hue_transform_matches_spec (T : Trig) (s : Source) (hue k : ℕ) :
    hue_tap_color T s hue k =
      (specRoundClamp ((lumaTable s).getD k 0
          + 0.956 * ((satTable s).getD k 0 * T.cosd hue)
          + 0.619 * ((satTable s).getD k 0 * T.sind hue)),
       specRoundClamp ((lumaTable s).getD k 0
          - 0.272 * ((satTable s).getD k 0 * T.cosd hue)
          - 0.647 * ((satTable s).getD k 0 * T.sind hue)),
       specRoundClamp ((lumaTable s).getD k 0
          - 1.106 * ((satTable s).getD k 0 * T.cosd hue)
          + 1.703 * ((satTable s).getD k 0 * T.sind hue))) := by
  simp only [hue_tap_color, hue_channel_r, hue_channel_g, hue_channel_b,
    specRoundClamp, Prod.mk.injEq]
  refine ⟨?_, ?_, ?_⟩ <;>
    · rw [clamp_trunc_eq_clamp_floor]
      congr 2
      ring

/-! ### The TGA writer (main.c lines 563-746). -/

/-- Image width chosen by `write_tga_file` (main.c lines 626-633). -/
def tga_width (numColors : ℕ) : ℕ :=
  if numColors ≤ 64 then 64
  else if numColors ≤ 256 then 256
  else if numColors ≤ 1024 then 1024
  else 1024

/-- Little-endian bytes of a 16-bit field, the layout `fwrite` of a
`short int` produces on the (little-endian) target. -/
def le16 (x : ℕ) : List ℕ := [x % 256, x / 256 % 256]

/-- The 18 header bytes of `write_tga_file`, in write order: id length,
colormap type, image type 2, 5-byte colormap specification, x origin, y origin,
width, height, bits per pixel 24, image descriptor 0x20. -/
def tga_header (w : ℕ) : List ℕ :=
  [0] ++ [0] ++ [2] ++ [0, 0, 0, 0, 0] ++ le16 0 ++ le16 0
    ++ le16 w ++ le16 1 ++ [24] ++ [0x20]

/-- Outcome of `write_tga_file`: C return status, the bytes written to the
file, and whether the too-many-colors failure message was printed. -/
structure TgaResult where
  status : ℤ
  bytes : List ℕ
  failureReported : Bool
  deriving DecidableEq

/-- Embedding of `write_tga_file` (main.c lines 563-746), under the assumptions
that the filename is valid, the file opens and every `fwrite` succeeds.  With
1024 or more colors the function prints the failure message and returns 0
before opening the file; otherwise it writes the 18 header bytes, one BGR
triple per color in generation order, and zero triples up to the image
width. -/
def write_tga_file (colors : List color) : TgaResult :=
  if 1024 ≤ colors.length then ⟨0, [], true⟩
  else
    ⟨0,
      tga_header (tga_width colors.length)
        ++ colors.flatMap (fun c => [c.b, c.g, c.r])
        ++ (List.range (tga_width colors.length - colors.length)).flatMap
            (fun _ => [0, 0, 0]),
      false⟩

lemma range_flatMap_zeros (m : ℕ) :
    (List.range m).flatMap (fun _ => ([0, 0, 0] : List ℕ))
      = List.replicate (m * 3) 0 := by
  induction m with
  | zero => rfl
  | succ n ih =>
    rw [List.range_succ, List.flatMap_append, ih, Nat.succ_mul, List.replicate_add]
    rfl

lemma bgr_length (colors : List color) :
    (colors.flatMap (fun c => [c.b, c.g, c.r])).length = 3 * colors.length := by
  induction colors with
  | nil => rfl
  | cons c cs ih =>
    simp only [List.flatMap_cons, List.length_append, ih, List.length_cons,
      List.length_nil]
    ring

lemma tga_header_length (w : ℕ) : (tga_header w).length = 18 := by
  simp [tga_header, le16]

/-- C5: for every color list the writer accepts (fewer than 1024 colors), the
chosen width is the smallest of 64, 256, 1024 that is at least the color
count, and the emitted file is exactly the 18 header bytes followed by one BGR
triple per color in generation order and zero-filled pixels up to the width:
18 + 3 * width bytes in total. -/
theorem tga_small_list_layout (colors : List color) (h : colors.length < 1024) :
    (write_tga_file colors).bytes
      = tga_header (tga_width colors.length)
        ++ colors.flatMap (fun c => [c.b, c.g, c.r])
        ++ List.replicate ((tga_width colors.length - colors.length) * 3) 0 ∧
    (write_tga_file colors).bytes.length = 18 + 3 * tga_width colors.length ∧
    (write_tga_file colors).status = 0 ∧
    (write_tga_file colors).failureReported = false ∧
    tga_width colors.length ∈ ([64, 256, 1024] : List ℕ) ∧
    colors.length ≤ tga_width colors.length ∧
    (∀ w ∈ ([64, 256, 1024] : List ℕ),
      colors.length ≤ w → tga_width colors.length ≤ w) := by
  have hle : colors.length ≤ tga_width colors.length := by
    unfold tga_width
    split_ifs <;> omega
  have hbytes : (write_tga_file colors).bytes
      = tga_header (tga_width colors.length)
        ++ colors.flatMap (fun c => [c.b, c.g, c.r])
        ++ List.replicate ((tga_width colors.length - colors.length) * 3) 0 := by
    unfold write_tga_file
    rw [if_neg (by omega)]
    rw [range_flatMap_zeros]
  refine ⟨hbytes, ?_, ?_, ?_, ?_, hle, ?_⟩
  · rw [hbytes]
    simp only [List.length_append, tga_header_length, bgr_length,
      List.length_replicate]
    omega
  · unfold write_tga_file
    rw [if_neg (by omega)]
  · unfold write_tga_file
    rw [if_neg (by omega)]
  · unfold tga_width
    split_ifs <;> simp
  · intro w hw hlw
    simp only [List.mem_cons, List.mem_singleton] at hw
    unfold tga_width
    rcases hw with rfl | rfl | rfl | h0 <;> first
      | (split_ifs <;> omega)
      | cases h0

/-- C5 witness: a list of exactly 64 colors is accepted and yields a 210-byte
file (18 header bytes plus 64 * 3 pixel bytes, no padding). -/
theorem tga_64_colors_210_bytes :
    (List.replicate 64 (⟨0, 0, 0⟩ : color)).length < 1024 ∧
    (write_tga_file (List.replicate 64 (⟨0, 0, 0⟩ : color))).bytes.length = 210 := by
  have h : (List.replicate 64 (⟨0, 0, 0⟩ : color)).length < 1024 := by simp
  refine ⟨h, ?_⟩
  have h2 := (tga_small_list_layout (List.replicate 64 ⟨0, 0, 0⟩) h).2.1
  rw [h2]
  norm_num [tga_width]

/-- C6: with 1024 or more colors the TGA writer refuses: it writes no bytes,
prints the failure report, and returns 0 — the same status as success, so the
caller sees no error and the run continues. -/
theorem tga_refuses_large_lists (colors : List color) (h : 1024 ≤ colors.length) :
    write_tga_file colors = ⟨0, [], true⟩ := by
  unfold write_tga_file
  rw [if_pos h]

/-- C6 witness: the refusal at exactly 1024 colors. -/
theorem tga_refusal_at_1024 :
    1024 ≤ (List.replicate 1024 (⟨0, 0, 0⟩ : color)).length ∧
    write_tga_file (List.replicate 1024 (⟨0, 0, 0⟩ : color)) = ⟨0, [], true⟩ := by
  refine ⟨by simp, tga_refuses_large_lists _ (by simp)⟩


/-! ### The GPL writer (main.c lines 468-558). -/

/-- Decimal digit characters of `v`, most significant first, with enough fuel
to consume every digit; models the output of `printf("%d", v)` for a
nonnegative value. -/
def decCharsAux : ℕ → ℕ → List Char
  | 0, _ => []
  | _ + 1, 0 => []
  | fuel + 1, v + 1 =>
      decCharsAux fuel ((v + 1) / 10) ++ [Nat.digitChar ((v + 1) % 10)]

/-- Decimal rendering of a natural number, as `printf("%d", v)` prints it. -/
def decChars (v : ℕ) : List Char := if v = 0 then ['0'] else decCharsAux (v + 1) v

/-- Decimal parsing of a token, folding digits left to right. -/
def parseNat (l : List Char) : ℕ := l.foldl (fun a c => a * 10 + (c.toNat - 48)) 0

/-- Whitespace for the re-parsing in the round-trip property: space, tab or
newline. -/
def isWsChar (c : Char) : Bool := c == ' ' || c == '\t' || c == '\n'

/-- One step of the whitespace tokenizer, processed right to left: the
accumulator holds the token currently being read and the finished tokens. -/
def tokStep (c : Char) (acc : List Char × List (List Char)) :
    List Char × List (List Char) :=
  if isWsChar c then ([], if acc.1.isEmpty then acc.2 else acc.1 :: acc.2)
  else (c :: acc.1, acc.2)

def tokFold (l : List Char) : List Char × List (List Char) :=
  l.foldr tokStep ([], [])

def tokFlush (p : List Char × List (List Char)) : List (List Char) :=
  if p.1.isEmpty then p.2 else p.1 :: p.2

/-- Splits a character list into maximal whitespace-free tokens. -/
def tokenize (l : List Char) : List (List Char) := tokFlush (tokFold l)

/-- The field `printf` emits for one channel value (main.c lines 530-549):
right-aligned in 3 characters, space-padded. -/
def gplField (v : ℕ) : List Char :=
  (if v < 10 then [' ', ' '] else if v < 100 then [' '] else []) ++ decChars v

/-- One color line of `write_gpl_file` (main.c lines 524-552): the r and g
fields each followed by one space, the b field, then a tab, the parenthesized
decimal triple, and a newline. -/
def gplColorLine (c : color) : List Char :=
  gplField c.r ++ [' '] ++ gplField c.g ++ [' '] ++ gplField c.b
    ++ ['\t', '('] ++ decChars c.r ++ [',', ' '] ++ decChars c.g ++ [',', ' ']
    ++ decChars c.b ++ [')', '\n']

/-- Palette display name written in the `Name:` header line
(main.c lines 500-521). -/
def sourceDisplayName : Source → String
  | Source.approx_nes => "Approximate NES"
  | Source.approx_nes_rotated => "Approximate NES Rotated"
  | Source.composite_06_0p75x => "Composite 06 0.75X"
  | Source.composite_06_3x => "Composite 06 3X"
  | Source.composite_12_1p50x => "Composite 12 1.5X"
  | Source.composite_12_6x => "Composite 12 6X"
  | Source.composite_18_1x => "Composite 18 1X"
  | Source.composite_24_0p75x => "Composite 24 0.75X"
  | Source.composite_24_3x => "Composite 24 3X"
  | Source.composite_36_2x => "Composite 36 2X"
  | Source.composite_48_1p50x => "Composite 48 1.5X"

/-- Lines of the file `write_gpl_file` emits, assuming the file opens: the
`GIMP Palette` header, the `Name:` line, a blank line (the double newline of
main.c lines 500-521), then one line per color. -/
def write_gpl_lines (s : Source) (colors : List color) : List (List Char) :=
  "GIMP Palette".data :: ("Name: " ++ sourceDisplayName s).data :: [] ::
    colors.map gplColorLine

/-- Triple recovered from one line by splitting on whitespace and reading the
first three tokens as decimal numbers. -/
def parseLine (l : List Char) : ℕ × ℕ × ℕ :=
  match tokenize l with
  | t1 :: t2 :: t3 :: _ => (parseNat t1, parseNat t2, parseNat t3)
  | _ => (0, 0, 0)

/-! Tokenizer lemmas. -/

lemma tokStep_ws (c : Char) (hc : isWsChar c = true)
    (acc : List Char × List (List Char)) :
    tokStep c acc = ([], tokFlush acc) := by
  unfold tokStep tokFlush
  rw [if_pos hc]

lemma foldr_nonws (tok : List Char) (h : ∀ c ∈ tok, isWsChar c = false) :
    ∀ acc : List Char × List (List Char),
      tok.foldr tokStep acc = (tok ++ acc.1, acc.2) := by
  induction tok with
  | nil => intro acc; rfl
  | cons c cs ih =>
    intro acc
    rw [List.foldr_cons, ih (fun x hx => h x (List.mem_cons_of_mem c hx))]
    unfold tokStep
    rw [if_neg (by rw [h c (List.mem_cons_self c cs)]; exact Bool.false_ne_true)]
    rfl

lemma tokenize_ws_cons (c : Char) (hc : isWsChar c = true) (rest : List Char) :
    tokenize (c :: rest) = tokenize rest := by
  unfold tokenize
  rw [show tokFold (c :: rest) = tokStep c (tokFold rest) from rfl,
    tokStep_ws c hc]
  rfl

lemma tokenize_token (tok : List Char) (w : Char) (rest : List Char)
    (hne : tok ≠ []) (hnw : ∀ c ∈ tok, isWsChar c = false)
    (hw : isWsChar w = true) :
    tokenize (tok ++ w :: rest) = tok :: tokenize rest := by
  unfold tokenize
  rw [show tokFold (tok ++ w :: rest)
      = tok.foldr tokStep (tokStep w (tokFold rest)) from by
    unfold tokFold
    rw [List.foldr_append]
    rfl]
  rw [tokStep_ws w hw, foldr_nonws tok hnw _]
  unfold tokFlush
  simp only [List.append_nil]
  rw [if_neg (by simpa using hne)]

/-- Facts about the rendered channel fields, checked for every possible
unsigned-char value: parsing inverts rendering, and a rendered field is a
nonempty whitespace-free token. -/
lemma decChars_spec : ∀ v : Fin 256,
    parseNat (decChars v.val) = v.val ∧ decChars v.val ≠ [] ∧
    ∀ c ∈ decChars v.val, isWsChar c = false := by decide

lemma tokenize_field (v : ℕ) (hv : v < 256) (w : Char) (hw : isWsChar w = true)
    (rest : List Char) :
    tokenize (gplField v ++ w :: rest) = decChars v :: tokenize rest := by
  have hd := decChars_spec ⟨v, hv⟩
  unfold gplField
  split_ifs with h1 h2
  · rw [List.append_assoc,
      show ([' ', ' '] : List Char) ++ (decChars v ++ w :: rest)
        = ' ' :: ' ' :: (decChars v ++ w :: rest) from rfl,
      tokenize_ws_cons ' ' (by decide), tokenize_ws_cons ' ' (by decide)]
    exact tokenize_token (decChars v) w rest hd.2.1 hd.2.2 hw
  · rw [List.append_assoc,
      show ([' '] : List Char) ++ (decChars v ++ w :: rest)
        = ' ' :: (decChars v ++ w :: rest) from rfl,
      tokenize_ws_cons ' ' (by decide)]
    exact tokenize_token (decChars v) w rest hd.2.1 hd.2.2 hw
  · rw [List.nil_append]
    exact tokenize_token (decChars v) w rest hd.2.1 hd.2.2 hw

lemma parse_gplColorLine (c : color) (hr : c.r < 256) (hg : c.g < 256)
    (hb : c.b < 256) : parseLine (gplColorLine c) = (c.r, c.g, c.b) := by
  have hline : gplColorLine c
      = gplField c.r ++ ' ' :: (gplField c.g ++ ' ' :: (gplField c.b ++ '\t' ::
          ('(' :: (decChars c.r ++ [',', ' '] ++ decChars c.g ++ [',', ' ']
            ++ decChars c.b ++ [')', '\n'])))) := by
    simp [gplColorLine, List.append_assoc]
  unfold parseLine
  rw [hline, tokenize_field c.r hr ' ' (by decide) _,
    tokenize_field c.g hg ' ' (by decide) _,
    tokenize_field c.b hb '\t' (by decide) _]
  show (parseNat (decChars c.r), parseNat (decChars c.g), parseNat (decChars c.b))
      = (c.r, c.g, c.b)
  rw [(decChars_spec ⟨c.r, hr⟩).1, (decChars_spec ⟨c.g, hg⟩).1,
    (decChars_spec ⟨c.b, hb⟩).1]

/-- C7: for every source and every color list with unsigned-char channels, the
GPL writer emits one line per color after the three header lines, and
re-parsing each emitted color line (splitting on whitespace and tab) recovers
exactly the r, g, b triples of the input list, in order. -/
theorem gpl_lines_roundtrip (s : Source) (colors : List color)
    (h : ∀ c ∈ colors, c.r < 256 ∧ c.g < 256 ∧ c.b < 256) :
    (write_gpl_lines s colors).drop 3 = colors.map gplColorLine ∧
    ((write_gpl_lines s colors).drop 3).map parseLine
      = colors.map (fun c => (c.r, c.g, c.b)) := by
  have hd : (write_gpl_lines s colors).drop 3 = colors.map gplColorLine := rfl
  refine ⟨hd, ?_⟩
  rw [hd, List.map_map]
  apply List.map_congr_left
  intro c hc
  exact parse_gplColorLine c (h c hc).1 (h c hc).2.1 (h c hc).2.2

/-- C7 witness: the round trip at a concrete one-color list. -/
theorem gpl_roundtrip_example :
    (∀ c ∈ [(⟨51, 89, 166⟩ : color)], c.r < 256 ∧ c.g < 256 ∧ c.b < 256) ∧
    ((write_gpl_lines Source.approx_nes [(⟨51, 89, 166⟩ : color)]).drop 3).map
        parseLine = [(51, 89, 166)] := by
  refine ⟨by decide, ?_⟩
  have h2 := (gpl_lines_roundtrip Source.approx_nes [(⟨51, 89, 166⟩ : color)]
    (by decide)).2
  simpa using h2


/-- C1 witness: instantiating the layout theorem for the ApproxNes source with
a concrete trigonometry oracle: 54 colors, black first, white sixth. -/
theorem approx_nes_palette_layout_witness :
    (Source.approx_nes = Source.approx_nes ∨
      Source.approx_nes = Source.approx_nes_rotated) ∧
    (runPalette ⟨fun _ => 0, fun _ => 0⟩ Source.approx_nes).colors.length = 54 ∧
    (runPalette ⟨fun _ => 0, fun _ => 0⟩ Source.approx_nes).colors.getD 0 ⟨0, 0, 0⟩
      = ⟨0, 0, 0⟩ ∧
    (runPalette ⟨fun _ => 0, fun _ => 0⟩ Source.approx_nes).colors.getD 5 ⟨0, 0, 0⟩
      = ⟨255, 255, 255⟩ := by
  have h := approx_nes_palette_layout ⟨fun _ => 0, fun _ => 0⟩ Source.approx_nes
    (Or.inl rfl)
  refine ⟨Or.inl rfl, ?_, h.2.2.2.2.2.1, ?_⟩
  · rw [h.2.2.2.2.1]
    rfl
  · exact h.2.2.2.2.2.2

end Palette
